import Mathlib

/-!
# Verification of the sabi-wallet social-recovery subsystem

This file embeds the threshold social-recovery subsystem of the
`sabi-wallet-backend` repository in Lean 4 and proves (or refutes) the
frozen claims about it.

Two layers are modelled:

* **SecretCodec (Shamir secret sharing).**  The repository calls
  `shamir::split_secret` / `shamir::reconstruct_secret` from an external
  crate whose code is not part of the repository, so the codec is
  modelled from the spec: splitting evaluates a polynomial whose
  constant coefficient is the secret at distinct nonzero field points,
  and reconstruction is Lagrange interpolation at zero.  As the spec's
  design notes state, the source's reconstruction has no embedded
  fingerprint or consistency cross-check, so reconstruction here is a
  total function on any share set.

* **RecoveryCoordinator (`src/services/recovery_service.rs`).**
  `initiate_recovery_request` and `submit_recovery_share` are embedded
  as pure functions over an explicit Redis-hash state, with every
  external fallible call (UUID parsing, DB fetch, NIP-04
  encrypt/decrypt, Nostr delivery, the shamir crate) supplied as an
  oracle in an environment record, mirroring the source's control flow
  line by line.  A small-step interleaving model of
  `submit_recovery_share` is used for the concurrency claim.
-/

/-! ## Shamir secret sharing, modelled from the spec

`evalPoly coeffs x` is Horner evaluation of the polynomial whose
coefficient list (constant term first) is `coeffs`. -/

/-- Modelled from the spec: Horner evaluation of a coefficient list
(constant coefficient first); the `shamir` crate is not part of the
repository's sources. -/
def evalPoly {F : Type} [Field F] (coeffs : List F) (x : F) : F :=
  match coeffs with
  | [] => 0
  | c :: cs => c + x * evalPoly cs x

/-- Modelled from the spec: `split(secret, k, n)` draws `k - 1` fresh
random coefficients `rand` and returns the shares
`(x, p(x))` for `x` ranging over the `n` evaluation points `xs`, where
`p` has constant coefficient `secret` (spec section 4.1; the `shamir`
crate is not part of the repository's sources). -/
def splitSecret {F : Type} [Field F] [DecidableEq F]
    (secret : F) (rand : List F) (xs : Finset F) : Finset (F × F) :=
  xs.image fun x => (x, evalPoly (secret :: rand) x)

/-- Modelled from the spec: reconstruction is Lagrange interpolation of
the share points evaluated at zero.  Per the spec's design notes the
source embeds no fingerprint, so this is a total function on any share
set. -/
def reconstructSecret {F : Type} [Field F] [DecidableEq F]
    (shares : Finset (F × F)) : F :=
  ∑ p ∈ shares, p.2 * ∏ q ∈ shares.erase p, q.1 * (q.1 - p.1)⁻¹

/-- The coefficient-list polynomial as a Mathlib polynomial (proof-only
bridge; Mathlib polynomial arithmetic is noncomputable). -/
noncomputable def toPoly {F : Type} [Field F] : List F → Polynomial F
  | [] => 0
  | c :: cs => Polynomial.C c + Polynomial.X * toPoly cs

theorem coeff_toPoly {F : Type} [Field F] (coeffs : List F) (m : Nat) :
    (toPoly coeffs).coeff m = coeffs.getD m 0 := by
  induction coeffs generalizing m with
  | nil => simp [toPoly]
  | cons c cs ih =>
    cases m with
    | zero => simp [toPoly, Polynomial.mul_coeff_zero]
    | succ m => simp [toPoly, Polynomial.coeff_X_mul, ih]

theorem degree_toPoly_lt {F : Type} [Field F] (coeffs : List F) :
    (toPoly coeffs).degree < (coeffs.length : Nat) := by
  rw [Polynomial.degree_lt_iff_coeff_zero]
  intro m hm
  rw [coeff_toPoly]
  exact List.getD_eq_default _ _ (by exact_mod_cast hm)

theorem eval_toPoly {F : Type} [Field F] (coeffs : List F) (x : F) :
    (toPoly coeffs).eval x = evalPoly coeffs x := by
  induction coeffs with
  | nil => simp [toPoly, evalPoly]
  | cons c cs ih => simp [toPoly, evalPoly, ih]

theorem evalPoly_zero {F : Type} [Field F] (c : F) (cs : List F) :
    evalPoly (c :: cs) 0 = c := by
  simp [evalPoly]

/-- Lagrange interpolation at zero: summing `f x · ∏ z/(z - x)` over a
set of nodes of cardinality above `f`'s degree recovers `f 0`. -/
theorem lagrange_at_zero {F : Type} [Field F] [DecidableEq F]
    (f : Polynomial F) (s : Finset F) (hdeg : f.degree < s.card) :
    (∑ x ∈ s, f.eval x * ∏ z ∈ s.erase x, z * (z - x)⁻¹) = f.eval 0 := by
  have hinj : Set.InjOn id (s : Set F) := Set.injOn_id _
  conv_rhs => rw [Lagrange.eq_interpolate hinj hdeg]
  rw [Lagrange.interpolate_apply, Polynomial.eval_finset_sum]
  refine Finset.sum_congr rfl fun x hx => ?_
  rw [Polynomial.eval_mul, Polynomial.eval_C, Lagrange.basis, Polynomial.eval_prod]
  simp only [id]
  refine congrArg (f.eval x * ·) (Finset.prod_congr rfl fun z hz => ?_)
  rw [Lagrange.basisDivisor, Polynomial.eval_mul, Polynomial.eval_C,
    Polynomial.eval_sub, Polynomial.eval_X, Polynomial.eval_C]
  rw [zero_sub, show x - z = -(z - x) by ring, inv_neg]
  ring

theorem reconstructSecret_image {F : Type} [Field F] [DecidableEq F]
    (f : F → F) (s : Finset F) :
    reconstructSecret (s.image fun x => (x, f x))
      = ∑ x ∈ s, f x * ∏ z ∈ s.erase x, z * (z - x)⁻¹ := by
  have hg : Function.Injective (fun x : F => (x, f x)) :=
    fun a b h => congrArg Prod.fst h
  unfold reconstructSecret
  rw [Finset.sum_image (fun x _ y _ h => hg h)]
  refine Finset.sum_congr rfl fun x hx => ?_
  rw [← Finset.image_erase hg, Finset.prod_image (fun a _ b _ h => hg h)]

/-- **C1.**  For any secret, any choice of `k - 1` random coefficients
(`k = rand.length + 1`) and any evaluation-point set, reconstructing
from any subset of at least `k` of the shares produced by `splitSecret`
returns exactly the original secret. -/
theorem shamir_split_reconstruct_roundtrip {F : Type} [Field F] [DecidableEq F]
    (secret : F) (rand : List F) (xs : Finset F) (t : Finset (F × F))
    (hsub : t ⊆ splitSecret secret rand xs) (hk : rand.length + 1 ≤ t.card) :
    reconstructSecret t = secret := by
  obtain ⟨u, hus, hut⟩ := Finset.subset_image_iff.mp hsub
  have hg : Function.Injective (fun x : F => (x, evalPoly (secret :: rand) x)) :=
    fun a b h => congrArg Prod.fst h
  have hcard : t.card = u.card := by
    rw [← hut, Finset.card_image_of_injective _ hg]
  have hlen : (secret :: rand).length ≤ u.card := by
    simpa [hcard] using hk
  have hdeg : (toPoly (secret :: rand)).degree < (u.card : Nat) := by
    refine lt_of_lt_of_le (degree_toPoly_lt _) ?_
    exact_mod_cast hlen
  have h0 := lagrange_at_zero (toPoly (secret :: rand)) u hdeg
  rw [← hut, reconstructSecret_image]
  calc
    ∑ x ∈ u, evalPoly (secret :: rand) x * ∏ z ∈ u.erase x, z * (z - x)⁻¹
        = ∑ x ∈ u, (toPoly (secret :: rand)).eval x
            * ∏ z ∈ u.erase x, z * (z - x)⁻¹ := by
          simp [eval_toPoly]
    _ = (toPoly (secret :: rand)).eval 0 := h0
    _ = secret := by rw [eval_toPoly, evalPoly_zero]

/-- A concrete computable field `GF(11)` for evaluating the model:
`Fin 11` with inverse realised as `a ^ 9` (Fermat), so that every field
operation reduces inside the kernel. -/
instance : Field (Fin 11) :=
  { (inferInstance : CommRing (Fin 11)) with
    inv := fun a => a ^ 9
    div := fun a b => a * b ^ 9
    div_eq_mul_inv := fun _ _ => rfl
    exists_pair_ne := ⟨0, 1, by decide⟩
    mul_inv_cancel := by decide
    inv_zero := by decide
    nnqsmul := _
    qsmul := _ }

/-- Witness for C1: the 3-of-5 scheme of the source, over `GF(11)`:
secret `2`, polynomial `2 + x`, shares at `1..5`; the subset
`{(1,3),(2,4),(3,5)}` reconstructs `2`. -/
theorem shamir_split_reconstruct_roundtrip_witness :
    (({(1, 3), (2, 4), (3, 5)} : Finset (Fin 11 × Fin 11))
        ⊆ splitSecret 2 [1, 0] {1, 2, 3, 4, 5})
      ∧ [1, 0].length + 1 ≤ ({(1, 3), (2, 4), (3, 5)} : Finset (Fin 11 × Fin 11)).card
      ∧ reconstructSecret ({(1, 3), (2, 4), (3, 5)} : Finset (Fin 11 × Fin 11)) = 2 :=
  ⟨by decide, by decide,
    shamir_split_reconstruct_roundtrip 2 [1, 0] {1, 2, 3, 4, 5} _ (by decide) (by decide)⟩

/-- **C4 (counterexample).**  Mixing shares of two independent splits of
the same secret `2` over `GF(11)` (polynomials `2 + x` and `2 + x²`):
shares `(1,3)` and `(2,4)` come from the first split, `(3,0)` from the
second.  Reconstruction silently returns the value `8`, a wrong secret;
no `InconsistentShares` failure exists on the reconstruction path. -/
theorem mixed_split_shares_reconstruct_wrong_secret :
    (1, 3) ∈ splitSecret (2 : Fin 11) [1, 0] {1, 2, 3, 4, 5}
      ∧ (2, 4) ∈ splitSecret (2 : Fin 11) [1, 0] {1, 2, 3, 4, 5}
      ∧ (3, 0) ∈ splitSecret (2 : Fin 11) [0, 1] {1, 2, 3, 4, 5}
      ∧ reconstructSecret ({(1, 3), (2, 4), (3, 0)} : Finset (Fin 11 × Fin 11)) = 8
      ∧ (8 : Fin 11) ≠ 2 := by
  refine ⟨by decide, by decide, by decide, by decide, by decide⟩

/-! ## The recovery coordinator (`src/services/recovery_service.rs`)

The two service functions are embedded as pure functions.  Every
external fallible operation (UUID parsing, database fetch, key parsing,
NIP-04 encryption and decryption, Redis connection, the shamir crate,
Nostr delivery) is supplied as an oracle field of an environment record,
and the Redis hash `recovery:{wallet_id}:shares` is an explicit
association list threaded through the function. -/

/-- The variants of `AppError` reachable from the recovery service. -/
inductive AppError where
  | anyhow (msg : String)
  | redis (msg : String)
  | notFound (msg : String)
  | badRequest (msg : String)
  | internal (msg : String)
  deriving DecidableEq

deriving instance DecidableEq for Except

/-- Redis `HSET` on one hash: atomic upsert of a field. -/
def hset : List (String × String) → String → String → List (String × String)
  | [], k, v => [(k, v)]
  | (k', v') :: rest, k, v =>
    if k' = k then (k, v) :: rest else (k', v') :: hset rest k v

/-- Redis `HVALS` on one hash: all field values. -/
def hvals (h : List (String × String)) : List String :=
  h.map Prod.snd

/-- Lookup of one field of a hash (`HGET`). -/
def hget : List (String × String) → String → Option String
  | [], _ => none
  | (k', v') :: rest, k => if k' = k then some v' else hget rest k

/-- Value of one hexadecimal digit. -/
def hexDigitVal (c : Char) : Option Nat :=
  if 48 ≤ c.toNat ∧ c.toNat ≤ 57 then some (c.toNat - 48)
  else if 97 ≤ c.toNat ∧ c.toNat ≤ 102 then some (c.toNat - 87)
  else if 65 ≤ c.toNat ∧ c.toNat ≤ 70 then some (c.toNat - 55)
  else none

/-- `hex::decode` on a character list: pairs of hex digits to bytes. -/
def hexDecodeChars : List Char → Option (List Nat)
  | [] => some []
  | [_] => none
  | c1 :: c2 :: rest =>
    match hexDigitVal c1, hexDigitVal c2, hexDecodeChars rest with
    | some hi, some lo, some bs => some ((16 * hi + lo) :: bs)
    | _, _, _ => none

/-- `hex::decode`. -/
def hexDecode (s : String) : Option (List Nat) :=
  hexDecodeChars s.toList

/-- Lower-case hex digit of a value below 16. -/
def hexDigitChar (n : Nat) : Char :=
  if n < 10 then Char.ofNat (48 + n) else Char.ofNat (87 + n)

/-- `hex::encode`. -/
def hexEncode (bs : List Nat) : String :=
  ⟨bs.foldr (fun b acc => hexDigitChar (b / 16) :: hexDigitChar (b % 16) :: acc) []⟩

/-- Oracles for the external fallible operations of
`submit_recovery_share`, in source order: `Uuid::parse_str`,
`PublicKey::from_bech32`, `SecretKey::from_sk_str` on the coordinator
nsec, the Redis connection, `nip04::decrypt`, the shamir crate's
`reconstruct_secret`, `SecretKey::from_slice`. -/
structure SubmitEnv where
  walletIdOk : Bool
  helperPubkeyOk : Bool
  coordinatorKeyOk : Bool
  redisConnOk : Bool
  decryptResult : Option String
  reconstructResult : List (List Nat) → Option (List Nat)
  secretKeyFromSliceOk : List Nat → Bool

/-- Result of one `submit_recovery_share` call: the returned
`Result<(), AppError>`, the Redis hash afterwards, and the
reconstructed secret when reconstruction ran to completion. -/
structure SubmitOut where
  result : Except AppError Unit
  store : List (String × String)
  reconstructed : Option (List Nat)

/-- Embedding of `submit_recovery_share`
(`src/services/recovery_service.rs` lines 91-171), mirroring the
source's control flow: parse wallet id and helper pubkey, parse the
coordinator nsec, NIP-04-decrypt the share, hex-decode it as
validation, `HSET` the *decrypted hex* into the session hash, read back
all values, and if at least 3 are present decode them all, reconstruct,
parse the secret key, and only then `DEL` the hash. -/
def submitRecoveryShare (env : SubmitEnv) (store : List (String × String))
    (helperPubkey : String) : SubmitOut :=
  if ¬ env.walletIdOk then
    ⟨.error (.badRequest "Invalid wallet ID"), store, none⟩
  else if ¬ env.helperPubkeyOk then
    ⟨.error (.badRequest "Invalid helper pubkey"), store, none⟩
  else if ¬ env.coordinatorKeyOk then
    ⟨.error (.internal "Failed to parse coordinator nsec"), store, none⟩
  else
    match env.decryptResult with
    | none => ⟨.error (.badRequest "Failed to decrypt share"), store, none⟩
    | some decryptedShareHex =>
      match hexDecode decryptedShareHex with
      | none => ⟨.error (.internal "Failed to hex-decode decrypted share"), store, none⟩
      | some _decryptedShare =>
        if ¬ env.redisConnOk then
          ⟨.error (.redis "failed to get async connection"), store, none⟩
        else
          let store1 := hset store helperPubkey decryptedShareHex
          let collected := hvals store1
          if 3 ≤ collected.length then
            match collected.mapM hexDecode with
            | none => ⟨.error (.internal "Failed to decode hex share"), store1, none⟩
            | some sharesBytes =>
              match env.reconstructResult sharesBytes with
              | none => ⟨.error (.internal "Failed to reconstruct secret"), store1, none⟩
              | some secret =>
                if env.secretKeyFromSliceOk secret then
                  ⟨.ok (), [], some secret⟩
                else
                  ⟨.error (.internal "Failed to parse reconstructed nsec"), store1, none⟩
          else
            ⟨.ok (), store1, none⟩

/-- Oracles for the external fallible operations of
`initiate_recovery_request`: `Uuid::parse_str`, the database fetch of
the encrypted nsec, `SecretKey::from_sk_str`, the shamir crate's
`split_secret(nsec, 3, 5)`, `NostrClient::new`, and per helper
`PublicKey::from_bech32`, `nip04::encrypt` and `send_dm`. -/
structure InitiateEnv where
  walletIdOk : Bool
  nsecRecord : Option String
  nsecParseOk : Bool
  splitResult : Option (List (List Nat))
  clientOk : Bool
  npubOk : String → Bool
  encryptFor : String → String → Option String
  dmSendOk : String → Bool

/-- Result of one `initiate_recovery_request` call: the returned
`Result<(), AppError>`, the `(k, n)` arguments passed to
`shamir::split_secret` (when the call was reached), and the list of
(helper, share) pairs actually delivered. -/
structure InitiateOut where
  result : Except AppError Unit
  splitCall : Option (Nat × Nat)
  sent : List (String × List Nat)

/-- The helper loop of `initiate_recovery_request` (lines 64-84): for
the helper at position `i`, parse its npub, index `shares[i]` (the
Rust indexing panics out of bounds; embedded as the `Option`-returning
index with an error branch), NIP-04-encrypt the hex-encoded share, and
send it as a DM; any failure aborts the remaining helpers via `?`. -/
def sendShares (env : InitiateEnv) (shares : List (List Nat)) :
    List String → Nat → Except AppError Unit × List (String × List Nat)
  | [], _ => (.ok (), [])
  | npub :: rest, i =>
    if ¬ env.npubOk npub then
      (.error (.badRequest "Invalid helper npub"), [])
    else
      match shares[i]? with
      | none => (.error (.internal "share index out of bounds"), [])
      | some share =>
        match env.encryptFor npub (hexEncode share) with
        | none => (.error (.internal "Failed to encrypt share for helper"), [])
        | some _ciphertext =>
          if env.dmSendOk npub then
            let r := sendShares env shares rest (i + 1)
            (r.1, (npub, share) :: r.2)
          else
            (.error (.internal "Failed to send Nostr event"), [])

/-- Embedding of `initiate_recovery_request`
(`src/services/recovery_service.rs` lines 28-87): parse the wallet id,
fetch and parse the wallet's nsec, split it via
`shamir::split_secret(nsec, 3, 5)` (the threshold pair is hardcoded),
create the Nostr client and run the helper delivery loop.  No session
record is consulted or created anywhere. -/
def initiateRecoveryRequest (env : InitiateEnv) (helperNpubs : List String) :
    InitiateOut :=
  if ¬ env.walletIdOk then
    ⟨.error (.badRequest "Invalid wallet ID"), none, []⟩
  else
    match env.nsecRecord with
    | none => ⟨.error (.notFound "Encrypted nsec not found for wallet"), none, []⟩
    | some _ =>
      if ¬ env.nsecParseOk then
        ⟨.error (.internal "Failed to parse nsec for recovery"), none, []⟩
      else
        match env.splitResult with
        | none => ⟨.error (.internal "Failed to split secret into shares"), some (3, 5), []⟩
        | some shares =>
          if ¬ env.clientOk then
            ⟨.error (.anyhow "Failed to add relay"), some (3, 5), []⟩
          else
            let r := sendShares env shares helperNpubs 0
            ⟨r.1, some (3, 5), r.2⟩

/-! ## Interleaving model of concurrent `submit_recovery_share` calls

Each concurrently running `submit_recovery_share` call suspends at
every `await`: the `HSET` write, the `HVALS` read, and the
reconstruct-then-`DEL` tail are separate atomic actions against the
shared Redis hash, with no lock or atomic conditional update between
them.  A thread is one call by one helper; a schedule is the order in
which the scheduler runs the threads' pending actions. -/

/-- Progress of one in-flight `submit_recovery_share` call: before the
`HSET`, after it, after the `HVALS` read (holding its snapshot of the
collected values, as the source does in `collected_shares`), and done. -/
inductive SubmitPhase where
  | ready
  | stored
  | checked (snapshot : List String)
  | finished

/-- One in-flight `submit_recovery_share` call. -/
structure SubmitCall where
  helper : String
  value : String
  phase : SubmitPhase

/-- The shared state: the Redis hash of the session and the number of
completed reconstructions. -/
structure RaceState where
  hash : List (String × String)
  reconstructions : Nat

/-- One atomic action of an in-flight call, mirroring the source's
await points: `HSET` the decrypted hex; read `HVALS` into a local
snapshot; if the snapshot holds at least 3 shares, reconstruct from the
snapshot and `DEL` the hash, else finish silently. -/
def stepSubmit (s : RaceState) (t : SubmitCall) : RaceState × SubmitCall :=
  match t.phase with
  | .ready =>
    (⟨hset s.hash t.helper t.value, s.reconstructions⟩, ⟨t.helper, t.value, .stored⟩)
  | .stored =>
    (s, ⟨t.helper, t.value, .checked (hvals s.hash)⟩)
  | .checked snapshot =>
    if 3 ≤ snapshot.length then
      (⟨[], s.reconstructions + 1⟩, ⟨t.helper, t.value, .finished⟩)
    else
      (s, ⟨t.helper, t.value, .finished⟩)
  | .finished => (s, t)

/-- Run a schedule: at each step the named thread performs its next
atomic action. -/
def runSchedule : RaceState → List SubmitCall → List Nat → RaceState
  | s, _, [] => s
  | s, ts, i :: rest =>
    match ts[i]? with
    | none => runSchedule s ts rest
    | some t =>
      let p := stepSubmit s t
      runSchedule p.1 (ts.set i p.2) rest

/-- **C2 (counterexample).**  Exactly `k = 3` distinct helpers submit
concurrently.  Under the interleaving in which all three `HSET` writes
land before two of the calls read `HVALS`, two calls each observe 3
collected shares and each runs reconstruction: two reconstructions (and
two recovered secrets) are produced for the session, not exactly one.
Under the fully serialized schedule the same three calls produce
exactly one reconstruction, confirming the race is the cause. -/
theorem concurrent_submits_reconstruct_twice :
    (runSchedule ⟨[], 0⟩
        [⟨"h1", "aa", .ready⟩, ⟨"h2", "bb", .ready⟩, ⟨"h3", "cc", .ready⟩]
        [0, 1, 2, 0, 1, 0, 1, 2, 2]).reconstructions = 2
      ∧ (runSchedule ⟨[], 0⟩
          [⟨"h1", "aa", .ready⟩, ⟨"h2", "bb", .ready⟩, ⟨"h3", "cc", .ready⟩]
          [0, 0, 0, 1, 1, 1, 2, 2, 2]).reconstructions = 1
      ∧ (2 : Nat) ≠ 1 := by
  refine ⟨by decide, by decide, by decide⟩

/-- **C3 (counterexample).**  A successful submission writes the
NIP-04-decrypted share hex itself into the durable session store: with
decryption yielding plaintext hex `"0a"`, the value held in the store
for the helper afterwards is exactly that plaintext, not an encryption
of it.  No session-scoped encryption exists on the write path. -/
theorem submit_stores_plaintext_share_at_rest :
    (submitRecoveryShare
        ⟨true, true, true, true, some "0a", fun _ => none, fun _ => false⟩
        [] "h1").result = .ok ()
      ∧ hget (submitRecoveryShare
          ⟨true, true, true, true, some "0a", fun _ => none, fun _ => false⟩
          [] "h1").store "h1" = some "0a" := by
  refine ⟨by decide, by decide⟩

/-- **C5 (counterexample).**  On the reconstruction-failure path the
shares are *not* discarded: the third submission reaches the threshold,
`shamir::reconstruct_secret` fails, the error propagates via `?` before
the `DEL`, and all three shares remain in the session store. -/
theorem reconstruction_failure_leaves_shares_behind :
    (submitRecoveryShare
        ⟨true, true, true, true, some "0c", fun _ => none, fun _ => false⟩
        [("h1", "0a"), ("h2", "0b")] "h3").result
      = .error (.internal "Failed to reconstruct secret")
      ∧ (submitRecoveryShare
          ⟨true, true, true, true, some "0c", fun _ => none, fun _ => false⟩
          [("h1", "0a"), ("h2", "0b")] "h3").store
        = [("h1", "0a"), ("h2", "0b"), ("h3", "0c")] := by
  refine ⟨by decide, by decide⟩

/-- **C6 (counterexample).**  `initiate_recovery_request` consults and
creates no session state whatsoever — its embedding takes no session
store — so initiating twice for the same wallet succeeds both times;
no `SessionAlreadyActive` failure exists anywhere in the code (the
error type has no such variant).  The two calls are the same function
application on the same inputs: nothing recorded by the first call can
make the second fail. -/
theorem initiate_ignores_active_sessions :
    (initiateRecoveryRequest
        ⟨true, some "nsec1", true, some [[1], [2], [3], [4], [5]], true,
          fun _ => true, fun _ _ => some "ct", fun _ => true⟩
        ["h1", "h2", "h3"]).result = .ok ()
      ∧ (initiateRecoveryRequest
          ⟨true, some "nsec1", true, some [[1], [2], [3], [4], [5]], true,
            fun _ => true, fun _ _ => some "ct", fun _ => true⟩
          ["h1", "h2", "h3"]).result = .ok () := by
  refine ⟨by decide, by decide⟩

/-- Writing the same field twice keeps one entry: the second `HSET`
overwrites the first. -/
theorem hset_hset (l : List (String × String)) (k v w : String) :
    hset (hset l k v) k w = hset l k w := by
  induction l with
  | nil => simp [hset]
  | cons p rest ih =>
    obtain ⟨k', v'⟩ := p
    by_cases h : k' = k
    · simp [hset, h]
    · simp [hset, h, ih]

/-- **C9.**  Recording a share is idempotent per helper: below the
threshold, a helper submitting twice leaves the collected-share state
identical to one submission, and in particular the helper counts
exactly once toward the threshold (the collected count is unchanged by
the resubmission). -/
theorem submit_resubmission_idempotent (env : SubmitEnv)
    (store : List (String × String)) (helper hx : String)
    (hw : env.walletIdOk = true) (hh : env.helperPubkeyOk = true)
    (hc : env.coordinatorKeyOk = true) (hr : env.redisConnOk = true)
    (hdec : env.decryptResult = some hx) (bs : List Nat)
    (hhex : hexDecode hx = some bs)
    (hlt : (hvals (hset store helper hx)).length < 3) :
    submitRecoveryShare env (submitRecoveryShare env store helper).store helper
        = submitRecoveryShare env store helper
      ∧ (hvals (submitRecoveryShare env
            (submitRecoveryShare env store helper).store helper).store).length
        = (hvals (submitRecoveryShare env store helper).store).length := by
  have hnle : ¬ 3 ≤ (hvals (hset store helper hx)).length := Nat.not_le.mpr hlt
  have h1 : submitRecoveryShare env store helper
      = ⟨.ok (), hset store helper hx, none⟩ := by
    simp [submitRecoveryShare, hw, hh, hc, hr, hdec, hhex, hnle]
  have h2 : submitRecoveryShare env (hset store helper hx) helper
      = ⟨.ok (), hset store helper hx, none⟩ := by
    simp [submitRecoveryShare, hw, hh, hc, hr, hdec, hhex, hset_hset, hnle]
  have hmain : submitRecoveryShare env (submitRecoveryShare env store helper).store helper
      = submitRecoveryShare env store helper := by
    rw [h1]
    exact h2
  exact ⟨hmain, congrArg (fun o => (hvals o.store).length) hmain⟩

/-- Witness for C9 at a concrete input: helper `"h1"`, decrypted hex
`"0a"`, empty prior store. -/
theorem submit_resubmission_idempotent_witness :
    hexDecode "0a" = some [10]
      ∧ (hvals (hset [] "h1" "0a")).length < 3
      ∧ submitRecoveryShare
            (⟨true, true, true, true, some "0a", fun _ => none, fun _ => false⟩ : SubmitEnv)
            (submitRecoveryShare
              (⟨true, true, true, true, some "0a", fun _ => none, fun _ => false⟩ : SubmitEnv)
              [] "h1").store "h1"
        = submitRecoveryShare
            (⟨true, true, true, true, some "0a", fun _ => none, fun _ => false⟩ : SubmitEnv)
            [] "h1" :=
  ⟨by decide, by decide,
    (submit_resubmission_idempotent
      ⟨true, true, true, true, some "0a", fun _ => none, fun _ => false⟩
      [] "h1" "0a" rfl rfl rfl rfl rfl [10] (by decide) (by decide)).1⟩

/-- Every per-helper operation of the delivery loop succeeds for the
helper `npub` holding share index `i`: its npub parses, the share
exists, encryption succeeds, and the DM send succeeds. -/
def deliverOk (env : InitiateEnv) (shares : List (List Nat)) (i : Nat)
    (npub : String) : Prop :=
  env.npubOk npub = true
    ∧ ∃ sh, shares[i]? = some sh
        ∧ (env.encryptFor npub (hexEncode sh)).isSome = true
        ∧ env.dmSendOk npub = true

/-- The (helper, share) pairs delivered to a fully successful helper
segment whose first helper holds share index `i`. -/
def sentPairs (shares : List (List Nat)) : List String → Nat → List (String × List Nat)
  | [], _ => []
  | npub :: rest, i => (npub, (shares[i]?).getD []) :: sentPairs shares rest (i + 1)

/-- Splitting the delivery loop at a fully successful segment `pre`:
the loop delivers to all of `pre` and continues on `rest` with the
share index advanced, returning `rest`'s status. -/
theorem sendShares_append (env : InitiateEnv) (shares : List (List Nat))
    (pre rest : List String) (i : Nat)
    (h : ∀ j (hj : j < pre.length), deliverOk env shares (i + j) (pre.get ⟨j, hj⟩)) :
    sendShares env shares (pre ++ rest) i
      = ((sendShares env shares rest (i + pre.length)).1,
          sentPairs shares pre i ++ (sendShares env shares rest (i + pre.length)).2) := by
  induction pre generalizing i with
  | nil => simp [sentPairs]
  | cons npub pre ih =>
    have h0 := h 0 (Nat.succ_pos _)
    simp only [Nat.add_zero] at h0
    obtain ⟨hnp, sh, hsh, henc, hsend⟩ := h0
    have hnp2 : env.npubOk npub = true := hnp
    have hsend2 : env.dmSendOk npub = true := hsend
    have henc2 : (env.encryptFor npub (hexEncode sh)).isSome = true := henc
    obtain ⟨ct, hct⟩ := Option.isSome_iff_exists.mp henc2
    have ih2 := ih (i + 1) (fun j hj => by
      have hx := h (j + 1) (Nat.succ_lt_succ hj)
      have hidx : i + (j + 1) = i + 1 + j := by omega
      rw [hidx] at hx
      exact hx)
    have hidx2 : i + 1 + pre.length = i + (pre.length + 1) := by omega
    rw [hidx2] at ih2
    simp [sendShares, sentPairs, hnp2, hsh, hct, hsend2, ih2]

/-- The `j`-th delivered pair of a fully successful segment pairs the
`j`-th helper with the share at index `i + j`. -/
theorem sentPairs_getElem (shares : List (List Nat)) :
    ∀ (l : List String) (i j : Nat) (hj : j < l.length),
      (sentPairs shares l i)[j]? = some (l.get ⟨j, hj⟩, (shares[i + j]?).getD []) := by
  intro l
  induction l with
  | nil => intro i j hj; exact absurd hj (by simp)
  | cons npub rest ih =>
    intro i j hj
    cases j with
    | zero => simp [sentPairs]
    | succ j =>
      have hidx : i + (j + 1) = i + 1 + j := by omega
      simp only [sentPairs, List.getElem?_cons_succ, List.get]
      rw [hidx]
      exact ih (i + 1) j (Nat.lt_of_succ_lt_succ hj)

/-- **C7 (counterexample).**  Three helpers, delivery to `"h2"` fails:
the whole `initiate` call aborts with that helper's error and `"h3"` is
never attempted — only `"h1"` received its share.  The failure is not
reported per-helper with delivery continuing, contrary to the claim. -/
theorem initiate_aborts_on_single_delivery_failure :
    (initiateRecoveryRequest
        ⟨true, some "nsec1", true, some [[1], [2], [3], [4], [5]], true,
          fun _ => true, fun _ _ => some "ct",
          fun s => if s = "h2" then false else true⟩
        ["h1", "h2", "h3"]).result = .error (.internal "Failed to send Nostr event")
      ∧ (initiateRecoveryRequest
          ⟨true, some "nsec1", true, some [[1], [2], [3], [4], [5]], true,
            fun _ => true, fun _ _ => some "ct",
            fun s => if s = "h2" then false else true⟩
          ["h1", "h2", "h3"]).sent = [("h1", [1])] := by
  refine ⟨by decide, by decide⟩

/-- **C7 (amended).**  A delivery failure for one helper aborts
`initiate` as a whole: if every helper before `bad` is delivered to
successfully and `bad`'s DM send fails, the call returns `bad`'s error,
helpers after `bad` are never attempted, and exactly the helpers before
`bad` keep their already-sent shares (no rollback). -/
theorem initiate_delivery_failure_aborts (env : InitiateEnv) (nr : String)
    (shares : List (List Nat)) (pre : List String) (bad : String)
    (post : List String)
    (hw : env.walletIdOk = true) (hnr : env.nsecRecord = some nr)
    (hp : env.nsecParseOk = true) (hs : env.splitResult = some shares)
    (hcl : env.clientOk = true)
    (hpre : ∀ j (hj : j < pre.length), deliverOk env shares j (pre.get ⟨j, hj⟩))
    (hbadnp : env.npubOk bad = true) (sh : List Nat)
    (hbadsh : shares[pre.length]? = some sh)
    (hbadenc : (env.encryptFor bad (hexEncode sh)).isSome = true)
    (hbadsend : env.dmSendOk bad = false) :
    (initiateRecoveryRequest env (pre ++ bad :: post)).result
        = .error (.internal "Failed to send Nostr event")
      ∧ (initiateRecoveryRequest env (pre ++ bad :: post)).sent
        = sentPairs shares pre 0 := by
  obtain ⟨ct, hct⟩ := Option.isSome_iff_exists.mp hbadenc
  have hsplit := sendShares_append env shares pre (bad :: post) 0
    (fun j hj => by simpa using hpre j hj)
  have hbad : sendShares env shares (bad :: post) pre.length
      = (.error (.internal "Failed to send Nostr event"), []) := by
    simp [sendShares, hbadnp, hbadsh, hct, hbadsend]
  simp [initiateRecoveryRequest, hw, hnr, hp, hs, hcl, hsplit, Nat.zero_add, hbad]

/-- Witness for the amended C7: helpers `["h1", "h2", "h3"]`, send to
`"h2"` fails; `initiate` errors and only `"h1"` holds a share. -/
theorem initiate_delivery_failure_aborts_witness :
    (initiateRecoveryRequest
        ⟨true, some "nsec1", true, some [[1], [2], [3], [4], [5]], true,
          fun _ => true, fun _ _ => some "ct",
          fun s => if s = "h1" then true else false⟩
        (["h1"] ++ "h2" :: ["h3"])).result
        = .error (.internal "Failed to send Nostr event")
      ∧ (initiateRecoveryRequest
          ⟨true, some "nsec1", true, some [[1], [2], [3], [4], [5]], true,
            fun _ => true, fun _ _ => some "ct",
            fun s => if s = "h1" then true else false⟩
          (["h1"] ++ "h2" :: ["h3"])).sent
        = sentPairs [[1], [2], [3], [4], [5]] ["h1"] 0 := by
  refine initiate_delivery_failure_aborts
    ⟨true, some "nsec1", true, some [[1], [2], [3], [4], [5]], true,
      fun _ => true, fun _ _ => some "ct",
      fun s => if s = "h1" then true else false⟩
    "nsec1" [[1], [2], [3], [4], [5]] ["h1"] "h2" ["h3"]
    rfl rfl rfl rfl rfl ?_ rfl [2] rfl rfl (by decide)
  intro j hj
  have hj1 : j < 1 := by simpa using hj
  have hj0 : j = 0 := by omega
  subst hj0
  refine ⟨rfl, [1], rfl, rfl, ?_⟩
  show (if ("h1" : String) = "h1" then true else false) = true
  decide

/-- **C8 (counterexample).**  With 4 helper npubs supplied, the secret
is still split with the hardcoded total `n = 5`, not `n = 4`: the pair
passed to `shamir::split_secret` is `(3, 5)` regardless of the number
of helpers. -/
theorem initiate_split_count_ignores_helper_count :
    (initiateRecoveryRequest
        ⟨true, some "nsec1", true, some [[1], [2], [3], [4], [5]], true,
          fun _ => true, fun _ _ => some "ct", fun _ => true⟩
        ["h1", "h2", "h3", "h4"]).splitCall = some (3, 5)
      ∧ (["h1", "h2", "h3", "h4"] : List String).length = 4
      ∧ (5 : Nat) ≠ 4 := by
  refine ⟨by decide, by decide, by decide⟩

/-- **C8 (amended).**  The split is always invoked with the hardcoded
pair `(k, n) = (3, 5)` whatever the helper count; when every delivery
succeeds, `initiate` succeeds and the `j`-th helper is sent exactly the
`j`-th indexed share. -/
theorem initiate_hardcoded_split_and_indexed_delivery (env : InitiateEnv)
    (nr : String) (shares : List (List Nat)) (helpers : List String)
    (hw : env.walletIdOk = true) (hnr : env.nsecRecord = some nr)
    (hp : env.nsecParseOk = true) (hs : env.splitResult = some shares)
    (hcl : env.clientOk = true)
    (hall : ∀ j (hj : j < helpers.length), deliverOk env shares j (helpers.get ⟨j, hj⟩)) :
    (initiateRecoveryRequest env helpers).splitCall = some (3, 5)
      ∧ (initiateRecoveryRequest env helpers).result = .ok ()
      ∧ (initiateRecoveryRequest env helpers).sent = sentPairs shares helpers 0
      ∧ ∀ j (hj : j < helpers.length),
          (initiateRecoveryRequest env helpers).sent[j]?
            = some (helpers.get ⟨j, hj⟩, (shares[j]?).getD []) := by
  have hsplit := sendShares_append env shares helpers [] 0
    (fun j hj => by simpa using hall j hj)
  rw [List.append_nil] at hsplit
  have hout : initiateRecoveryRequest env helpers
      = ⟨.ok (), some (3, 5), sentPairs shares helpers 0⟩ := by
    simp [initiateRecoveryRequest, hw, hnr, hp, hs, hcl, hsplit, sendShares]
  refine ⟨by rw [hout], by rw [hout], by rw [hout], fun j hj => ?_⟩
  rw [hout]
  simpa using sentPairs_getElem shares helpers 0 j hj

/-- Witness for the amended C8: the all-successful 5-helper run. -/
theorem initiate_hardcoded_split_and_indexed_delivery_witness :
    (initiateRecoveryRequest
        ⟨true, some "nsec1", true, some [[1], [2], [3], [4], [5]], true,
          fun _ => true, fun _ _ => some "ct", fun _ => true⟩
        ["h1", "h2", "h3", "h4", "h5"]).splitCall = some (3, 5)
      ∧ (initiateRecoveryRequest
          ⟨true, some "nsec1", true, some [[1], [2], [3], [4], [5]], true,
            fun _ => true, fun _ _ => some "ct", fun _ => true⟩
          ["h1", "h2", "h3", "h4", "h5"]).result = .ok () := by
  have h := initiate_hardcoded_split_and_indexed_delivery
    ⟨true, some "nsec1", true, some [[1], [2], [3], [4], [5]], true,
      fun _ => true, fun _ _ => some "ct", fun _ => true⟩
    "nsec1" [[1], [2], [3], [4], [5]] ["h1", "h2", "h3", "h4", "h5"]
    rfl rfl rfl rfl rfl ?hall
  case hall =>
    intro j hj
    have hj5 : j < 5 := by simpa using hj
    interval_cases j <;> exact ⟨rfl, _, rfl, rfl, rfl⟩
  exact ⟨h.1, h.2.1⟩

/-- **C10.**  The embedded `submit` writes nothing to the store unless
decryption and hex-decoding both succeed (any such failure returns an
error with the store unchanged); and the split being hardcoded to 5
shares, an `initiate` with more than 5 helpers reaches the
out-of-bounds share lookup at the 6th helper: the `Option`-returning
index yields `none` and the error branch is returned. -/
theorem submit_initiate_totality_preconditions :
    (∀ (env : SubmitEnv) (store : List (String × String)) (helper : String),
        env.decryptResult = none →
        (submitRecoveryShare env store helper).store = store
          ∧ ∃ e, (submitRecoveryShare env store helper).result = Except.error e)
      ∧ (∀ (env : SubmitEnv) (store : List (String × String)) (helper hx : String),
          env.decryptResult = some hx → hexDecode hx = none →
          (submitRecoveryShare env store helper).store = store
            ∧ ∃ e, (submitRecoveryShare env store helper).result = Except.error e)
      ∧ (∀ (env : InitiateEnv) (nr : String) (shares : List (List Nat))
          (pre : List String) (bad : String) (post : List String),
          env.walletIdOk = true → env.nsecRecord = some nr →
          env.nsecParseOk = true → env.splitResult = some shares →
          env.clientOk = true → shares.length = 5 → pre.length = 5 →
          (∀ j (hj : j < pre.length), deliverOk env shares j (pre.get ⟨j, hj⟩)) →
          env.npubOk bad = true →
          (initiateRecoveryRequest env (pre ++ bad :: post)).result
            = .error (.internal "share index out of bounds")) := by
  refine ⟨?_, ?_, ?_⟩
  · intro env store helper hdec
    by_cases hw : env.walletIdOk = true <;>
      by_cases hh : env.helperPubkeyOk = true <;>
        by_cases hc : env.coordinatorKeyOk = true <;>
          simp [submitRecoveryShare, hw, hh, hc, hdec]
  · intro env store helper hx hdec hhex
    by_cases hw : env.walletIdOk = true <;>
      by_cases hh : env.helperPubkeyOk = true <;>
        by_cases hc : env.coordinatorKeyOk = true <;>
          simp [submitRecoveryShare, hw, hh, hc, hdec, hhex]
  · intro env nr shares pre bad post hw hnr hp hs hcl hlen hplen hpre hbadnp
    have hsplit := sendShares_append env shares pre (bad :: post) 0
      (fun j hj => by simpa using hpre j hj)
    have hnone : shares[pre.length]? = none :=
      List.getElem?_eq_none (by omega)
    have hbad : sendShares env shares (bad :: post) pre.length
        = (.error (.internal "share index out of bounds"), []) := by
      simp [sendShares, hbadnp, hnone]
    simp [initiateRecoveryRequest, hw, hnr, hp, hs, hcl, hsplit, Nat.zero_add, hbad]

/-- Witness for C10: a failed decryption writes nothing, and a 6-helper
`initiate` hits the out-of-bounds error at the 6th helper. -/
theorem submit_initiate_totality_preconditions_witness :
    (submitRecoveryShare
        ⟨true, true, true, true, none, fun _ => none, fun _ => false⟩
        [("h1", "0a")] "h2").store = [("h1", "0a")]
      ∧ (initiateRecoveryRequest
          ⟨true, some "nsec1", true, some [[1], [2], [3], [4], [5]], true,
            fun _ => true, fun _ _ => some "ct", fun _ => true⟩
          (["h1", "h2", "h3", "h4", "h5"] ++ "h6" :: [])).result
        = .error (.internal "share index out of bounds") := by
  constructor
  · exact (submit_initiate_totality_preconditions.1
      ⟨true, true, true, true, none, fun _ => none, fun _ => false⟩
      [("h1", "0a")] "h2" rfl).1
  · refine submit_initiate_totality_preconditions.2.2
      ⟨true, some "nsec1", true, some [[1], [2], [3], [4], [5]], true,
        fun _ => true, fun _ _ => some "ct", fun _ => true⟩
      "nsec1" [[1], [2], [3], [4], [5]] ["h1", "h2", "h3", "h4", "h5"] "h6" []
      rfl rfl rfl rfl rfl (by decide) (by decide) ?_ rfl
    intro j hj
    have hj5 : j < 5 := by simpa using hj
    interval_cases j <;> exact ⟨rfl, _, rfl, rfl, rfl⟩
